import Mathlib

/-!
# Verification of the GCS index-revision adapter

A shallow embedding of the revision-store adapter: `joinUriSegments`
(lib/util/join-uri-segments.js) and the three operations `upload`,
`activate` and `fetchRevisions` of the main index module.

Modelling conventions:
* The remote object-storage backend is a `Backend`: the list of stored
  objects plus explicit failure injections for each storage call
  (list, getMetadata, copy, write stream, makePublic, setMetadata).
* A promise chain becomes a function `Backend → Backend × Option OpError`;
  `none` in the second component is a resolved promise, `some e` a
  rejection.  The first component is the storage state when the chain
  finished.
* JS strings are Lean `String`s; `name.substr(n)` is `strDrop`,
  the backend's prefix filter is `strStarts`, and
  `name.indexOf(sub) >= 0` is `strHas` (substring occurrence).
* The external mime-types library is out of scope (spec section 1); its
  `mime.lookup` is an oracle `String → Option String`, `none` standing
  for the JS `false` (type undetermined).
* Custom GCS metadata is modelled by the one key the code reads and
  writes, `metadata.revision`.
* Timestamps (`metadata.updated`, compared through `new Date` in the
  sort comparator) are `Nat`.
-/

instance {ε α : Type} [DecidableEq ε] [DecidableEq α] : DecidableEq (Except ε α) := fun x y =>
  match x, y with
  | .ok a, .ok b =>
    if h : a = b then .isTrue (by rw [h]) else .isFalse (by simp [h])
  | .error a, .error b =>
    if h : a = b then .isTrue (by rw [h]) else .isFalse (by simp [h])
  | .ok _, .error _ => .isFalse (by simp)
  | .error _, .ok _ => .isFalse (by simp)

/-- lib/util/join-uri-segments.js:
`prefix === '' ? uri : [prefix, uri].join('/')`. -/
def joinUriSegments (pfx uri : String) : String :=
  if pfx = "" then uri else pfx ++ "/" ++ uri

/-- JS `s.substr(n)`: drop the first `n` characters. -/
def strDrop (s : String) (n : Nat) : String :=
  ⟨s.data.drop n⟩

/-- Backend listing filter: does `s` start with `p`? -/
def strStarts (s p : String) : Bool :=
  decide (p.data <+: s.data)

/-- JS `s.indexOf(sub) >= 0`: does `sub` occur inside `s`? -/
def strHas (s sub : String) : Bool :=
  decide (sub.data <:+: s.data)

/-- Metadata of a stored object.  `revision` is the custom
`metadata.revision` entry written by `activate` and read back by
`fetchRevisions`; `updated` is the last-modified timestamp. -/
structure ObjectMeta where
  contentType : Option String
  cacheControl : Option String
  acl : Option String
  revision : Option String
  gzip : Bool
  updated : Nat
  deriving DecidableEq

/-- A stored object: key, metadata and content bytes. -/
structure GObject where
  name : String
  meta : ObjectMeta
  content : String
  deriving DecidableEq

/-- One row of the `fetchRevisions` result. -/
structure Revision where
  revision : String
  timestamp : Nat
  active : Bool
  deriving DecidableEq

/-- A storage error as seen in a callback: `code` models
`response.error.code` (`none` when no HTTP error code is attached). -/
structure GError where
  code : Option Nat
  msg : String
  deriving DecidableEq

/-- A rejection of one of the operations. -/
inductive OpError where
  /-- the underlying storage error of a failed list / getMetadata call -/
  | storage (e : GError)
  /-- a transport error of a copy / write / makePublic / setMetadata call -/
  | transport (msg : String)
  /-- an explicit `RSVP.reject(msg)` of the adapter itself -/
  | rejected (msg : String)
  deriving DecidableEq

/-- The remote storage backend: its objects, and injected outcomes for
each kind of call (`none` = the call behaves normally). -/
structure Backend where
  objects : List GObject
  listFails : Option GError
  metaFails : Option GError
  copyFails : Option String
  writeFails : Option String
  makePublicFails : Option String
  setMetadataFails : Option String
  deriving DecidableEq

/-- A backend with no injected failures. -/
def okBackend (objs : List GObject) : Backend :=
  ⟨objs, none, none, none, none, none, none⟩

/-- Store `o`, overwriting any object with the same key. -/
def putObject (objs : List GObject) (o : GObject) : List GObject :=
  objs.filter (fun x => !(x.name == o.name)) ++ [o]

/-- Look an object up by key. -/
def findObj (b : Backend) (key : String) : Option GObject :=
  b.objects.find? (fun o => o.name == key)

/-- Embeds `bucket.getFiles({prefix})`: all objects whose key starts with the
given string, in store order; rejects iff a listing failure is injected. -/
def getFilesStep (pfx : String) (b : Backend) : Except GError (List GObject) :=
  match b.listFails with
  | some e => .error e
  | none => .ok (b.objects.filter (fun o => strStarts o.name pfx))

/-- Embeds `file(key).getMetadata()` as the backend answers it: the injected
error if any, a 404 error when the object is absent, else its metadata. -/
def rawGetMetadata (key : String) (b : Backend) : Except GError ObjectMeta :=
  match b.metaFails with
  | some e => .error e
  | none =>
    match b.objects.find? (fun o => o.name == key) with
    | some o => .ok o.meta
    | none => .error ⟨some 404, "Not Found"⟩

/-- The `current` promise of `fetchRevisions`: a 404 from `getMetadata`
is swallowed (`resolve()`, i.e. no current metadata), any other error
rejects (source lines 149-163). -/
def currentStep (key : String) (b : Backend) : Except GError (Option ObjectMeta) :=
  match rawGetMetadata key b with
  | .ok m => .ok (some m)
  | .error e => if e.code = some 404 then .ok none else .error e

/-- The per-object body of the final `map` of `fetchRevisions`
(source lines 168-172): strip the revision prefix off the key, take the
timestamp, and flag `active` iff the index metadata exists and its
recorded `revision` occurs inside the object's key
(`d.name.indexOf(data.current.metadata.revision) >= 0`). -/
def toRevision (current : Option ObjectMeta) (revPfx : String) (d : GObject) : Revision :=
  { revision := strDrop d.name revPfx.length
    timestamp := d.meta.updated
    active :=
      match current with
      | none => false
      | some m =>
        match m.revision with
        | none => false
        | some r => strHas d.name r }

/-- The sort comparator of `fetchRevisions`:
`new Date(b.metadata.updated) - new Date(a.metadata.updated)`, i.e.
descending by `updated`. -/
def updatedGe (a b : GObject) : Prop :=
  b.meta.updated ≤ a.meta.updated

instance : DecidableRel updatedGe :=
  fun a b => Nat.decLe b.meta.updated a.meta.updated

instance : IsTotal GObject updatedGe :=
  ⟨fun a b => Nat.le_total b.meta.updated a.meta.updated⟩

instance : IsTrans GObject updatedGe :=
  ⟨fun a b c h1 h2 => by
    simp only [updatedGe] at h1 h2 ⊢
    exact Nat.le_trans h2 h1⟩

/-- Embeds `fetchRevisions` (source lines 131-174): list all objects under
`<prefix>/<filePattern>:`, fetch the index object's metadata
(404-tolerant), sort the objects by `updated` descending, and map each
to a `Revision`. -/
def fetchRevisions (pfx pat : String) (b : Backend) : Except GError (List Revision) :=
  let revPfx := joinUriSegments pfx (pat ++ ":")
  let indexKey := joinUriSegments pfx pat
  match getFilesStep revPfx b, currentStep indexKey b with
  | .error e, _ => .error e
  | .ok _, .error e => .error e
  | .ok files, .ok current =>
    .ok ((files.insertionSort updatedGe).map (toRevision current revPfx))

/-- The fixed cache-control value the adapter writes
(`'max-age=0, no-cache'`). -/
def defaultCacheControl : String :=
  "max-age=0, no-cache"

/-- Options of an `upload` call.  `fileBody` is the content read from
`filePath` by the write stream. -/
structure UploadOptions where
  pfx : String
  pat : String
  revisionKey : String
  filePath : String
  fileBody : String
  acl : Option String
  allowOverwrite : Bool
  gzippedFilePaths : List String
  deriving DecidableEq

/-- Embeds `mime.lookup(filePath) || 'text/html'` with the external
mime-types library as oracle `ml` (`none` = JS `false`,
undetermined). -/
def contentTypeOf (ml : String → Option String) (filePath : String) : String :=
  (ml filePath).getD "text/html"

/-- The object `upload` writes at
`joinUriSegments(prefix, filePattern + ":" + revisionKey)` (source
lines 38-53 and 63-77): content type from the path extension, the fixed
cache-control value, the ACL verbatim, the gzip transform iff
`filePattern` occurs in `gzippedFilePaths`, and the backend stamping
`updated := now`. -/
def writtenObject (ml : String → Option String) (now : Nat) (o : UploadOptions) : GObject :=
  { name := joinUriSegments o.pfx (o.pat ++ ":" ++ o.revisionKey)
    meta :=
      { contentType := some (contentTypeOf ml o.filePath)
        cacheControl := some defaultCacheControl
        acl := o.acl
        revision := none
        gzip := o.gzippedFilePaths.contains o.pat
        updated := now }
    content := o.fileBody }

/-- Embeds `upload` (source lines 33-78): fetch the revisions, reject when the
revision key is already present and `allowOverwrite` is false
(`found >= 0 && !allowOverwrite`), otherwise stream the file to the
revision key. -/
def upload (ml : String → Option String) (now : Nat) (o : UploadOptions) (b : Backend) :
    Backend × Option OpError :=
  match fetchRevisions o.pfx o.pat b with
  | .error e => (b, some (.storage e))
  | .ok revisions =>
    if o.revisionKey ∈ revisions.map Revision.revision ∧ o.allowOverwrite = false then
      (b, some (.rejected "REVISION ALREADY UPLOADED! (set allowOverwrite: true if you want to support overwriting revisions)"))
    else
      match b.writeFails with
      | some m => (b, some (.transport m))
      | none => ({ b with objects := putObject b.objects (writtenObject ml now o) }, none)

/-- The custom metadata map of an `activate` call; the code touches only
its `revision` key. -/
structure MetaData where
  revision : Option String
  deriving DecidableEq

/-- The caller-supplied `meta` option of `activate`; the code touches
only `cacheControl` and `metadata`. -/
structure ActMeta where
  cacheControl : Option String
  metadata : Option MetaData
  deriving DecidableEq

/-- Options of an `activate` call.  `meta` is `options.meta`
(`none` = absent, defaulted to `{}` by `options.meta || {}`). -/
structure ActivateOptions where
  pfx : String
  pat : String
  revisionKey : String
  meta : Option ActMeta
  makePublic : Bool
  deriving DecidableEq

/-- The metadata `activate` prepares before doing anything else (source
lines 86-96): default `meta` to `{}`, default a falsy `cacheControl`
(absent or the empty string) to the fixed cache-control value, and
stamp `metadata.revision` with the revision key. -/
def mergedMeta (om : Option ActMeta) (revisionKey : String) : ActMeta :=
  let m := om.getD ⟨none, none⟩
  { cacheControl :=
      match m.cacheControl with
      | none => some defaultCacheControl
      | some c => if c = "" then some defaultCacheControl else some c
    metadata := some ⟨some revisionKey⟩ }

/-- Embeds the `file.setMetadata(meta)` patching semantics on the stored metadata:
fields present in `meta` replace the stored ones, the rest persist. -/
def applyMeta (m : ObjectMeta) (am : ActMeta) : ObjectMeta :=
  { m with
    cacheControl :=
      match am.cacheControl with
      | some c => some c
      | none => m.cacheControl
    revision :=
      match am.metadata with
      | some md => md.revision
      | none => m.revision }

/-- Embeds `file(src).copy(dst)`: the injected transport failure if any, a 404
error when the source is absent, else the destination now holds a copy
of the source object (content and metadata). -/
def copyStep (src dst : String) (b : Backend) : Backend × Option OpError :=
  match b.copyFails with
  | some m => (b, some (.transport m))
  | none =>
    match b.objects.find? (fun o => o.name == src) with
    | none => (b, some (.storage ⟨some 404, "No such object"⟩))
    | some o => ({ b with objects := putObject b.objects { o with name := dst } }, none)

/-- Embeds `file(key).makePublic()`: the injected failure if any, a 404 error
when the object is absent, else the object's ACL becomes public-read. -/
def makePublicStep (key : String) (b : Backend) : Backend × Option OpError :=
  match b.makePublicFails with
  | some m => (b, some (.transport m))
  | none =>
    match b.objects.find? (fun o => o.name == key) with
    | none => (b, some (.storage ⟨some 404, "No such object"⟩))
    | some o =>
      let updatedObj := { o with meta := { o.meta with acl := some "public-read" } }
      ({ b with objects := putObject b.objects updatedObj }, none)

/-- Embeds `file(key).setMetadata(meta)`: the injected failure if any, a 404
error when the object is absent, else the object's metadata is patched
with `meta`. -/
def setMetadataStep (key : String) (am : ActMeta) (b : Backend) : Backend × Option OpError :=
  match b.setMetadataFails with
  | some m => (b, some (.transport m))
  | none =>
    match b.objects.find? (fun o => o.name == key) with
    | none => (b, some (.storage ⟨some 404, "No such object"⟩))
    | some o => ({ b with objects := putObject b.objects { o with meta := applyMeta o.meta am } }, none)

/-- Embeds `activate` (source lines 80-129): merge the metadata, fetch the
revisions, reject with "REVISION NOT FOUND!" when the revision key is
not among them; otherwise copy the revision object onto the index key,
then, when `makePublic` is requested, call makePublic and on its
success set the metadata — a makePublic failure is logged and the chain
resolves without ever calling setMetadata (source lines 110-117);
without `makePublic` the metadata is set directly. -/
def activate (o : ActivateOptions) (b : Backend) : Backend × Option OpError :=
  let meta := mergedMeta o.meta o.revisionKey
  let revKey := joinUriSegments o.pfx (o.pat ++ ":" ++ o.revisionKey)
  let indexKey := joinUriSegments o.pfx o.pat
  match fetchRevisions o.pfx o.pat b with
  | .error e => (b, some (.storage e))
  | .ok revisions =>
    if o.revisionKey ∈ revisions.map Revision.revision then
      match copyStep revKey indexKey b with
      | (b1, some e) => (b1, some e)
      | (b1, none) =>
        if o.makePublic then
          match makePublicStep indexKey b1 with
          | (b2, some _e) => (b2, none)
          | (b2, none) => setMetadataStep indexKey meta b2
        else
          setMetadataStep indexKey meta b1
    else
      (b, some (.rejected "REVISION NOT FOUND!"))

/-- Object metadata as `upload` would have written it at timestamp `t`,
used by the concrete instances below. -/
def mkMeta (t : Nat) : ObjectMeta :=
  ⟨some "text/html", some defaultCacheControl, none, none, false, t⟩

/-- A backend holding one uploaded revision `abc` of `index.html`,
whose makePublic call is set up to fail. -/
def mpFailBackend : Backend :=
  ⟨[⟨"index.html:abc", mkMeta 1, "A"⟩], none, none, none, none, some "boom", none⟩

/-- The state of `mpFailBackend` right after the copy of
`index.html:abc` onto `index.html`. -/
def mpFailCopied : Backend :=
  ⟨[⟨"index.html:abc", mkMeta 1, "A"⟩, ⟨"index.html", mkMeta 1, "A"⟩],
    none, none, none, none, some "boom", none⟩

/-- A backend holding two revisions whose keys overlap: `abc` is a
substring of `abc123`. -/
def overlapBackend : Backend :=
  okBackend [⟨"index.html:abc", mkMeta 1, "A"⟩, ⟨"index.html:abc123", mkMeta 2, "B"⟩]

/-- A backend holding three revisions with increasing timestamps. -/
def threeRevBackend : Backend :=
  okBackend [⟨"index.html:a", mkMeta 1, "A"⟩, ⟨"index.html:b", mkMeta 2, "B"⟩,
    ⟨"index.html:c", mkMeta 3, "C"⟩]

/-- If a key starts with the revision prefix, gluing the prefix back
onto the stripped revision recovers the key. -/
theorem strStarts_append_drop (s p : String) (h : strStarts s p = true) :
    p ++ strDrop s p.length = s := by
  obtain ⟨t, ht⟩ : p.data <+: s.data := by simpa [strStarts] using h
  cases s with
  | mk sd =>
  cases p with
  | mk pd =>
  simp only [strDrop]
  show String.mk (pd ++ List.drop (String.length ⟨pd⟩) sd) = ⟨sd⟩
  have hlen : String.length ⟨pd⟩ = pd.length := rfl
  simp only [String.data] at ht
  rw [hlen, ← ht, List.drop_left]

/-- The freshly stored object is what a lookup by its key finds. -/
theorem find?_putObject (objs : List GObject) (o : GObject) (key : String)
    (hk : o.name = key) :
    (putObject objs o).find? (fun x => x.name == key) = some o := by
  subst hk
  unfold putObject
  rw [List.find?_append]
  have h1 : (objs.filter (fun x => !(x.name == o.name))).find? (fun x => x.name == o.name) = none := by
    rw [List.find?_eq_none]
    intro x hx
    have hx2 := List.of_mem_filter hx
    simp only [Bool.not_eq_true'] at hx2
    simp [hx2]
  rw [h1]
  simp

/-- Inversion of a successful `fetchRevisions`: both storage queries
succeeded and the result is the sorted, mapped object list. -/
theorem fetchRevisions_ok_inv {pfx pat : String} {b : Backend} {revs : List Revision}
    (h : fetchRevisions pfx pat b = .ok revs) :
    ∃ files current,
      getFilesStep (joinUriSegments pfx (pat ++ ":")) b = .ok files ∧
      currentStep (joinUriSegments pfx pat) b = .ok current ∧
      revs = (files.insertionSort updatedGe).map
        (toRevision current (joinUriSegments pfx (pat ++ ":"))) := by
  revert h
  simp only [fetchRevisions]
  cases hg : getFilesStep (joinUriSegments pfx (pat ++ ":")) b with
  | error e => intro h; simp at h
  | ok files =>
    cases hc : currentStep (joinUriSegments pfx pat) b with
    | error e => intro h; simp at h
    | ok current =>
      intro h
      simp only [Except.ok.injEq] at h
      exact ⟨files, current, rfl, rfl, h.symm⟩

/-- Inversion of a successful `getFilesStep`: no listing failure was
injected and the result is the prefix filter of the store. -/
theorem getFilesStep_ok_inv {pfx : String} {b : Backend} {files : List GObject}
    (h : getFilesStep pfx b = .ok files) :
    b.listFails = none ∧ files = b.objects.filter (fun o => strStarts o.name pfx) := by
  revert h
  unfold getFilesStep
  cases hl : b.listFails with
  | some e => intro h; simp at h
  | none =>
    intro h
    simp only [Except.ok.injEq] at h
    exact ⟨rfl, h.symm⟩

/-- C6: for all prefixes p and patterns f, the key-joining function
satisfies joinKey("", f) = f (no leading separator) and
joinKey(p, f) = p ++ "/" ++ f whenever p is non-empty. -/
theorem joinUriSegments_spec (p f : String) :
    (p = "" → joinUriSegments p f = f) ∧
    (p ≠ "" → joinUriSegments p f = p ++ "/" ++ f) := by
  constructor <;> intro h <;> simp [joinUriSegments, h]

theorem joinUriSegments_spec_witness :
    joinUriSegments "" "index.html" = "index.html" ∧
    joinUriSegments "assets" "index.html" = "assets" ++ "/" ++ "index.html" :=
  ⟨(joinUriSegments_spec "" "index.html").1 rfl,
   (joinUriSegments_spec "assets" "index.html").2 (by decide)⟩

/-- C10: for every object the storage listing returns whose name begins
with the revision prefix built by `joinUriSegments`, the `revision`
field of the `Revision` that `fetchRevisions` produces for it
round-trips: gluing the revision prefix onto it yields exactly the
original object name. -/
theorem revision_roundtrip (pfx pat : String) (current : Option ObjectMeta) (d : GObject)
    (hs : strStarts d.name (joinUriSegments pfx (pat ++ ":")) = true) :
    joinUriSegments pfx (pat ++ ":") ++
      (toRevision current (joinUriSegments pfx (pat ++ ":")) d).revision = d.name := by
  simp only [toRevision]
  exact strStarts_append_drop d.name (joinUriSegments pfx (pat ++ ":")) hs

theorem revision_roundtrip_witness :
    strStarts "assets/index.html:abc" (joinUriSegments "assets" ("index.html" ++ ":")) = true ∧
    joinUriSegments "assets" ("index.html" ++ ":") ++
      (toRevision none (joinUriSegments "assets" ("index.html" ++ ":"))
        ⟨"assets/index.html:abc", mkMeta 1, "A"⟩).revision = "assets/index.html:abc" :=
  ⟨by decide,
   revision_roundtrip "assets" "index.html" none ⟨"assets/index.html:abc", mkMeta 1, "A"⟩
     (by decide)⟩

/-- C4: an `activate` call whose revision key is not among the revisions
the listing step returned rejects with "REVISION NOT FOUND!" and leaves
the whole store untouched. -/
theorem activate_revision_not_found (o : ActivateOptions) (b : Backend)
    (revs : List Revision)
    (hf : fetchRevisions o.pfx o.pat b = .ok revs)
    (hnm : o.revisionKey ∉ revs.map Revision.revision) :
    activate o b = (b, some (.rejected "REVISION NOT FOUND!")) := by
  simp [activate, hf, hnm]

theorem activate_revision_not_found_witness :
    fetchRevisions "" "index.html" (okBackend [⟨"index.html:abc", mkMeta 1, "A"⟩]) =
      .ok [⟨"abc", 1, false⟩] ∧
    activate ⟨"", "index.html", "zzz", none, false⟩
        (okBackend [⟨"index.html:abc", mkMeta 1, "A"⟩]) =
      (okBackend [⟨"index.html:abc", mkMeta 1, "A"⟩], some (.rejected "REVISION NOT FOUND!")) :=
  ⟨by decide,
   activate_revision_not_found ⟨"", "index.html", "zzz", none, false⟩
     (okBackend [⟨"index.html:abc", mkMeta 1, "A"⟩]) [⟨"abc", 1, false⟩]
     (by decide) (by decide)⟩

/-- C3: when a listed revision equals the given revision key and
`allowOverwrite` is false, `upload` rejects with the "already uploaded"
error and the store is untouched; with `allowOverwrite` true or no
collision (and no injected stream failure) the write proceeds. -/
theorem upload_overwrite_guard (ml : String → Option String) (now : Nat)
    (o : UploadOptions) (b : Backend) (revs : List Revision)
    (hf : fetchRevisions o.pfx o.pat b = .ok revs) :
    (o.revisionKey ∈ revs.map Revision.revision → o.allowOverwrite = false →
      upload ml now o b =
        (b, some (.rejected "REVISION ALREADY UPLOADED! (set allowOverwrite: true if you want to support overwriting revisions)"))) ∧
    ((o.allowOverwrite = true ∨ o.revisionKey ∉ revs.map Revision.revision) →
      b.writeFails = none →
      upload ml now o b =
        ({ b with objects := putObject b.objects (writtenObject ml now o) }, none)) := by
  constructor
  · intro hm hov
    simp [upload, hf, hm, hov]
  · intro hcase hw
    have hguard : ¬ (o.revisionKey ∈ revs.map Revision.revision ∧ o.allowOverwrite = false) := by
      rcases hcase with h | h
      · rintro ⟨_, hfalse⟩
        rw [h] at hfalse
        exact Bool.noConfusion hfalse
      · rintro ⟨hmem, _⟩
        exact h hmem
    simp only [upload, hf]
    rw [if_neg hguard, hw]

theorem upload_overwrite_guard_witness :
    upload (fun _ => some "text/html") 5
        ⟨"", "index.html", "abc", "dist/index.html", "BODY", none, false, []⟩
        (okBackend [⟨"index.html:abc", mkMeta 1, "A"⟩]) =
      (okBackend [⟨"index.html:abc", mkMeta 1, "A"⟩],
        some (.rejected "REVISION ALREADY UPLOADED! (set allowOverwrite: true if you want to support overwriting revisions)")) :=
  (upload_overwrite_guard (fun _ => some "text/html") 5
      ⟨"", "index.html", "abc", "dist/index.html", "BODY", none, false, []⟩
      (okBackend [⟨"index.html:abc", mkMeta 1, "A"⟩]) [⟨"abc", 1, false⟩]
      (by decide)).1 (by decide) rfl

/-- C7: a successful `upload` stores, at the revision key, exactly the
object whose content type comes from the path extension (default
text/html), whose cache control is the fixed "max-age=0, no-cache",
whose ACL is the input taken verbatim, and whose gzip-on-write
transform is on iff `filePattern` occurs in `gzippedFilePaths`. -/
theorem upload_write_params (ml : String → Option String) (now : Nat)
    (o : UploadOptions) (b b' : Backend)
    (h : upload ml now o b = (b', none)) :
    findObj b' (joinUriSegments o.pfx (o.pat ++ ":" ++ o.revisionKey)) =
      some (writtenObject ml now o) ∧
    (writtenObject ml now o).meta.contentType = some ((ml o.filePath).getD "text/html") ∧
    (writtenObject ml now o).meta.cacheControl = some "max-age=0, no-cache" ∧
    (writtenObject ml now o).meta.acl = o.acl ∧
    ((writtenObject ml now o).meta.gzip = true ↔ o.pat ∈ o.gzippedFilePaths) ∧
    (writtenObject ml now o).content = o.fileBody := by
  cases hf : fetchRevisions o.pfx o.pat b with
  | error e =>
    simp only [upload, hf] at h
    simp at h
  | ok revs =>
    simp only [upload, hf] at h
    by_cases hg : o.revisionKey ∈ revs.map Revision.revision ∧ o.allowOverwrite = false
    · rw [if_pos hg] at h
      simp at h
    · rw [if_neg hg] at h
      cases hw : b.writeFails with
      | some m =>
        simp only [hw] at h
        simp at h
      | none =>
        simp only [hw] at h
        have hb' : b' = { b with objects := putObject b.objects (writtenObject ml now o) } := by
          have h1 := congrArg Prod.fst h
          rw [hw]
          simpa using h1.symm
        subst hb'
        refine ⟨?_, rfl, rfl, rfl, ?_, rfl⟩
        · exact find?_putObject b.objects (writtenObject ml now o) _ rfl
        · simp [writtenObject]

theorem upload_write_params_witness :
    findObj (okBackend [writtenObject (fun _ => none) 7
        ⟨"", "index.html", "abc", "dist/index.html", "BODY", some "publicRead", true, ["index.html"]⟩])
      (joinUriSegments "" ("index.html" ++ ":" ++ "abc")) =
      some (writtenObject (fun _ => none) 7
        ⟨"", "index.html", "abc", "dist/index.html", "BODY", some "publicRead", true, ["index.html"]⟩) ∧
    (writtenObject (fun _ => none) 7
      ⟨"", "index.html", "abc", "dist/index.html", "BODY", some "publicRead", true, ["index.html"]⟩).meta.contentType =
      some (((fun (_ : String) => (none : Option String)) "dist/index.html").getD "text/html") ∧
    (writtenObject (fun _ => none) 7
      ⟨"", "index.html", "abc", "dist/index.html", "BODY", some "publicRead", true, ["index.html"]⟩).meta.cacheControl =
      some "max-age=0, no-cache" ∧
    (writtenObject (fun _ => none) 7
      ⟨"", "index.html", "abc", "dist/index.html", "BODY", some "publicRead", true, ["index.html"]⟩).meta.acl =
      some "publicRead" ∧
    ((writtenObject (fun _ => none) 7
      ⟨"", "index.html", "abc", "dist/index.html", "BODY", some "publicRead", true, ["index.html"]⟩).meta.gzip = true ↔
      "index.html" ∈ ["index.html"]) ∧
    (writtenObject (fun _ => none) 7
      ⟨"", "index.html", "abc", "dist/index.html", "BODY", some "publicRead", true, ["index.html"]⟩).content = "BODY" :=
  upload_write_params (fun _ => none) 7
    ⟨"", "index.html", "abc", "dist/index.html", "BODY", some "publicRead", true, ["index.html"]⟩
    (okBackend []) _ (by decide)

/-- C8: the metadata `activate` writes to the index object is the
caller-supplied meta with `cacheControl` defaulted to
"max-age=0, no-cache" exactly when the caller's meta lacks one (the
code's test is JS falsiness, so an absent value is defaulted and any
non-empty supplied value is preserved), and with `metadata.revision`
unconditionally set to the revision key: on the non-public success
path, `activate` is exactly a `setMetadataStep` with `mergedMeta`. -/
theorem activate_metadata_merge (o : ActivateOptions) (b b1 : Backend)
    (revs : List Revision)
    (hf : fetchRevisions o.pfx o.pat b = .ok revs)
    (hmem : o.revisionKey ∈ revs.map Revision.revision)
    (hcopy : copyStep (joinUriSegments o.pfx (o.pat ++ ":" ++ o.revisionKey))
      (joinUriSegments o.pfx o.pat) b = (b1, none))
    (hM : o.makePublic = false) :
    activate o b =
      setMetadataStep (joinUriSegments o.pfx o.pat) (mergedMeta o.meta o.revisionKey) b1 ∧
    (mergedMeta o.meta o.revisionKey).metadata = some ⟨some o.revisionKey⟩ ∧
    ((o.meta.getD ⟨none, none⟩).cacheControl = none →
      (mergedMeta o.meta o.revisionKey).cacheControl = some defaultCacheControl) ∧
    (∀ c, (o.meta.getD ⟨none, none⟩).cacheControl = some c → c ≠ "" →
      (mergedMeta o.meta o.revisionKey).cacheControl = some c) := by
  refine ⟨?_, rfl, ?_, ?_⟩
  · simp only [activate, hf]
    rw [if_pos hmem, hcopy]
    simp [hM]
  · intro h
    simp [mergedMeta, h]
  · intro c h hne
    simp [mergedMeta, h, hne]

theorem activate_metadata_merge_witness :
    activate ⟨"", "index.html", "abc", none, false⟩ (okBackend [⟨"index.html:abc", mkMeta 1, "A"⟩]) =
      setMetadataStep (joinUriSegments "" "index.html") (mergedMeta none "abc")
        (okBackend [⟨"index.html:abc", mkMeta 1, "A"⟩, ⟨"index.html", mkMeta 1, "A"⟩]) ∧
    (mergedMeta none "abc").metadata = some ⟨some "abc"⟩ ∧
    (mergedMeta none "abc").cacheControl = some defaultCacheControl :=
  ⟨(activate_metadata_merge ⟨"", "index.html", "abc", none, false⟩
      (okBackend [⟨"index.html:abc", mkMeta 1, "A"⟩])
      (okBackend [⟨"index.html:abc", mkMeta 1, "A"⟩, ⟨"index.html", mkMeta 1, "A"⟩])
      [⟨"abc", 1, false⟩] (by decide) (by decide) (by decide) rfl).1,
   (activate_metadata_merge ⟨"", "index.html", "abc", none, false⟩
      (okBackend [⟨"index.html:abc", mkMeta 1, "A"⟩])
      (okBackend [⟨"index.html:abc", mkMeta 1, "A"⟩, ⟨"index.html", mkMeta 1, "A"⟩])
      [⟨"abc", 1, false⟩] (by decide) (by decide) (by decide) rfl).2.1,
   (activate_metadata_merge ⟨"", "index.html", "abc", none, false⟩
      (okBackend [⟨"index.html:abc", mkMeta 1, "A"⟩])
      (okBackend [⟨"index.html:abc", mkMeta 1, "A"⟩, ⟨"index.html", mkMeta 1, "A"⟩])
      [⟨"abc", 1, false⟩] (by decide) (by decide) (by decide) rfl).2.2.1 rfl⟩

/-- C1 (amended): when `makePublic` is requested and the ACL-set call
fails, the failure is swallowed and the overall `activate` promise
still resolves, but the chain stops at the post-copy state: the
metadata update is skipped, so the index object's metadata is NOT
stamped with the revision key. -/
theorem activate_makePublic_fail_swallowed (o : ActivateOptions) (b b1 : Backend)
    (revs : List Revision) (m : String)
    (hM : o.makePublic = true)
    (hf : fetchRevisions o.pfx o.pat b = .ok revs)
    (hmem : o.revisionKey ∈ revs.map Revision.revision)
    (hcopy : copyStep (joinUriSegments o.pfx (o.pat ++ ":" ++ o.revisionKey))
      (joinUriSegments o.pfx o.pat) b = (b1, none))
    (hmp : b1.makePublicFails = some m) :
    activate o b = (b1, none) := by
  simp only [activate, hf]
  rw [if_pos hmem, hcopy]
  simp [hM, makePublicStep, hmp]

theorem activate_makePublic_fail_swallowed_witness :
    activate ⟨"", "index.html", "abc", none, true⟩ mpFailBackend = (mpFailCopied, none) :=
  activate_makePublic_fail_swallowed ⟨"", "index.html", "abc", none, true⟩
    mpFailBackend mpFailCopied [⟨"abc", 1, false⟩] "boom"
    rfl (by decide) (by decide) (by decide) rfl

/-- C1 counterexample: with `makePublic = true` and a failing ACL-set
call, `activate` resolves, yet the index object's `metadata.revision`
is still unset (`none`): the claim that the index metadata "ends up
updated" to the revision key fails on this input. -/
theorem activate_makePublic_fail_cex :
    (activate ⟨"", "index.html", "abc", none, true⟩ mpFailBackend).2 = none ∧
    (findObj (activate ⟨"", "index.html", "abc", none, true⟩ mpFailBackend).1
      "index.html").map (fun o => o.meta.revision) = some none ∧
    ¬ ((findObj (activate ⟨"", "index.html", "abc", none, true⟩ mpFailBackend).1
      "index.html").map (fun o => o.meta.revision) = some (some "abc")) := by
  decide

/-- C5: the failure policy of the listing: an injected listing failure
rejects with the underlying error; a metadata-fetch failure carrying
HTTP code 404 (and likewise an absent index object) is swallowed and
the listing completes with no active revision; a metadata-fetch
failure with any other code rejects with the underlying error. -/
theorem fetchRevisions_failure_policy (pfx pat : String) (b : Backend) :
    (∀ e, b.listFails = some e → fetchRevisions pfx pat b = .error e) ∧
    (∀ e, b.listFails = none → b.metaFails = some e → e.code = some 404 →
      ∃ revs, fetchRevisions pfx pat b = .ok revs ∧ ∀ rev ∈ revs, rev.active = false) ∧
    (∀ e, b.listFails = none → b.metaFails = some e → ¬ (e.code = some 404) →
      fetchRevisions pfx pat b = .error e) ∧
    (b.listFails = none → b.metaFails = none →
      findObj b (joinUriSegments pfx pat) = none →
      ∃ revs, fetchRevisions pfx pat b = .ok revs ∧ ∀ rev ∈ revs, rev.active = false) := by
  refine ⟨?_, ?_, ?_, ?_⟩
  · intro e h
    simp [fetchRevisions, getFilesStep, h]
  · intro e hl hm h404
    refine ⟨((b.objects.filter (fun o => strStarts o.name (joinUriSegments pfx (pat ++ ":")))).insertionSort updatedGe).map
      (toRevision none (joinUriSegments pfx (pat ++ ":"))), ?_, ?_⟩
    · simp [fetchRevisions, getFilesStep, currentStep, rawGetMetadata, hl, hm, h404]
    · intro rev hrev
      obtain ⟨d, _, hd⟩ := List.mem_map.mp hrev
      rw [← hd]
      rfl
  · intro e hl hm h404
    simp [fetchRevisions, getFilesStep, currentStep, rawGetMetadata, hl, hm, h404]
  · intro hl hm hfo
    simp only [findObj] at hfo
    refine ⟨((b.objects.filter (fun o => strStarts o.name (joinUriSegments pfx (pat ++ ":")))).insertionSort updatedGe).map
      (toRevision none (joinUriSegments pfx (pat ++ ":"))), ?_, ?_⟩
    · simp [fetchRevisions, getFilesStep, currentStep, rawGetMetadata, hl, hm, hfo]
    · intro rev hrev
      obtain ⟨d, _, hd⟩ := List.mem_map.mp hrev
      rw [← hd]
      rfl

theorem fetchRevisions_failure_policy_witness :
    fetchRevisions "" "index.html"
      ⟨[], some ⟨none, "socket hang up"⟩, none, none, none, none, none⟩ =
      .error ⟨none, "socket hang up"⟩ ∧
    fetchRevisions "" "index.html"
      ⟨[⟨"index.html:abc", mkMeta 1, "A"⟩], none, some ⟨some 403, "forbidden"⟩,
        none, none, none, none⟩ =
      .error ⟨some 403, "forbidden"⟩ :=
  ⟨(fetchRevisions_failure_policy "" "index.html"
      ⟨[], some ⟨none, "socket hang up"⟩, none, none, none, none, none⟩).1
      ⟨none, "socket hang up"⟩ rfl,
   (fetchRevisions_failure_policy "" "index.html"
      ⟨[⟨"index.html:abc", mkMeta 1, "A"⟩], none, some ⟨some 403, "forbidden"⟩,
        none, none, none, none⟩).2.2.1
      ⟨some 403, "forbidden"⟩ rfl rfl (by decide)⟩

/-- C9: a successful listing is sorted by timestamp descending (newest
first) and is, as a multiset, exactly the prefix-matching objects
mapped to revisions; with three stored timestamps t1 < t2 < t3 this
pins the output order to [t3, t2, t1]. -/
theorem fetchRevisions_sorted (pfx pat : String) (b : Backend)
    (files : List GObject) (current : Option ObjectMeta) (revs : List Revision)
    (hg : getFilesStep (joinUriSegments pfx (pat ++ ":")) b = .ok files)
    (hc : currentStep (joinUriSegments pfx pat) b = .ok current)
    (h : fetchRevisions pfx pat b = .ok revs) :
    revs.Pairwise (fun x y => y.timestamp ≤ x.timestamp) ∧
    revs.Perm (files.map (toRevision current (joinUriSegments pfx (pat ++ ":")))) := by
  obtain ⟨files', current', hg', hc', hrevs⟩ := fetchRevisions_ok_inv h
  rw [hg] at hg'
  rw [hc] at hc'
  injection hg' with hfe
  injection hc' with hce
  subst hfe
  subst hce
  subst hrevs
  constructor
  · exact List.Pairwise.map _ (fun a b hab => hab)
      (List.sorted_insertionSort updatedGe files)
  · exact (List.perm_insertionSort updatedGe files).map _

theorem fetchRevisions_sorted_witness :
    ([(⟨"c", 3, false⟩ : Revision), ⟨"b", 2, false⟩, ⟨"a", 1, false⟩]).Pairwise
      (fun x y => y.timestamp ≤ x.timestamp) ∧
    ([(⟨"c", 3, false⟩ : Revision), ⟨"b", 2, false⟩, ⟨"a", 1, false⟩]).Perm
      (([⟨"index.html:a", mkMeta 1, "A"⟩, ⟨"index.html:b", mkMeta 2, "B"⟩,
        ⟨"index.html:c", mkMeta 3, "C"⟩] : List GObject).map
        (toRevision none (joinUriSegments "" ("index.html" ++ ":")))) :=
  fetchRevisions_sorted "" "index.html" threeRevBackend
    [⟨"index.html:a", mkMeta 1, "A"⟩, ⟨"index.html:b", mkMeta 2, "B"⟩,
      ⟨"index.html:c", mkMeta 3, "C"⟩]
    none [⟨"c", 3, false⟩, ⟨"b", 2, false⟩, ⟨"a", 1, false⟩]
    (by decide) (by decide) (by decide)

/-- When no metadata failure is injected and the index object exists,
the 404-tolerant metadata fetch returns its metadata. -/
theorem currentStep_of_find (b : Backend) (key : String) (io : GObject)
    (hmf : b.metaFails = none)
    (hfo : findObj b key = some io) :
    currentStep key b = .ok (some io.meta) := by
  simp only [findObj] at hfo
  simp [currentStep, rawGetMetadata, hmf, hfo]

/-- Inversion of a resolved non-public `activate`: the listing
succeeded and contained the revision key, the copy succeeded, and the
final state stores the index object with the merged metadata patched
in. -/
theorem activate_ok_inv (o : ActivateOptions) (b b2 : Backend)
    (hM : o.makePublic = false)
    (hact : activate o b = (b2, none)) :
    ∃ revs b1 o0,
      fetchRevisions o.pfx o.pat b = .ok revs ∧
      o.revisionKey ∈ revs.map Revision.revision ∧
      copyStep (joinUriSegments o.pfx (o.pat ++ ":" ++ o.revisionKey))
        (joinUriSegments o.pfx o.pat) b = (b1, none) ∧
      b1.setMetadataFails = none ∧
      b1.objects.find? (fun x => x.name == joinUriSegments o.pfx o.pat) = some o0 ∧
      b2 = { b1 with objects := putObject b1.objects { o0 with meta := applyMeta o0.meta (mergedMeta o.meta o.revisionKey) } } := by
  cases hf : fetchRevisions o.pfx o.pat b with
  | error e =>
    simp only [activate, hf] at hact
    simp at hact
  | ok revs =>
    simp only [activate, hf] at hact
    by_cases hmem : o.revisionKey ∈ revs.map Revision.revision
    · rw [if_pos hmem] at hact
      cases hcp : copyStep (joinUriSegments o.pfx (o.pat ++ ":" ++ o.revisionKey))
          (joinUriSegments o.pfx o.pat) b with
      | mk b1 eo =>
        rw [hcp] at hact
        cases eo with
        | some e => simp at hact
        | none =>
          simp only [hM, Bool.false_eq_true, if_false] at hact
          cases hsm : b1.setMetadataFails with
          | some m =>
            simp only [setMetadataStep, hsm] at hact
            simp at hact
          | none =>
            simp only [setMetadataStep, hsm] at hact
            cases hfo : b1.objects.find? (fun x => x.name == joinUriSegments o.pfx o.pat) with
            | none =>
              rw [hfo] at hact
              simp at hact
            | some o0 =>
              rw [hfo] at hact
              refine ⟨revs, b1, o0, rfl, hmem, rfl, hsm, hfo, ?_⟩
              have h1 := congrArg Prod.fst hact
              rw [hsm]
              simpa using h1.symm
    · rw [if_neg hmem] at hact
      simp at hact

/-- C2 (amended): activating an existing revision key on the non-public
path stamps the index object's `metadata.revision` with that key, and a
subsequent successful `fetchRevisions` reports each listed revision's
`active` flag as "the recorded key occurs as a substring of the listed
object's key" (the revision prefix glued back onto the revision field);
in particular the activated revision itself is always reported active.
Another revision is reported inactive only when the recorded key does
not occur inside its key — not unconditionally (see the
counterexample with overlapping keys `abc` / `abc123`). -/
theorem activate_then_fetch_active (o : ActivateOptions) (b b2 : Backend)
    (revs2 : List Revision)
    (hM : o.makePublic = false)
    (hact : activate o b = (b2, none))
    (hmf : b2.metaFails = none)
    (hfetch : fetchRevisions o.pfx o.pat b2 = .ok revs2) :
    (findObj b2 (joinUriSegments o.pfx o.pat)).map (fun io => io.meta.revision) =
      some (some o.revisionKey) ∧
    (∀ rev ∈ revs2,
      rev.active = strHas (joinUriSegments o.pfx (o.pat ++ ":") ++ rev.revision) o.revisionKey) ∧
    (∀ rev ∈ revs2, rev.revision = o.revisionKey → rev.active = true) := by
  obtain ⟨revs, b1, o0, hf, hmem, hcp, hsm, hfo, hb2⟩ := activate_ok_inv o b b2 hM hact
  set io : GObject := { o0 with meta := applyMeta o0.meta (mergedMeta o.meta o.revisionKey) } with hio
  have hname : io.name = joinUriSegments o.pfx o.pat := by
    have h1 := List.find?_some hfo
    simp only [hio]
    simpa using h1
  have hput : findObj b2 (joinUriSegments o.pfx o.pat) = some io := by
    rw [hb2]
    exact find?_putObject b1.objects io _ hname
  have hrev : io.meta.revision = some o.revisionKey := by
    simp [hio, applyMeta, mergedMeta]
  have h2 : ∀ rev ∈ revs2,
      rev.active = strHas (joinUriSegments o.pfx (o.pat ++ ":") ++ rev.revision) o.revisionKey := by
    obtain ⟨files, current, hg, hc, hrevs2⟩ := fetchRevisions_ok_inv hfetch
    have hcur : current = some io.meta := by
      have hcs := currentStep_of_find b2 (joinUriSegments o.pfx o.pat) io hmf hput
      rw [hcs] at hc
      injection hc with h
      exact h.symm
    obtain ⟨_, hfiles⟩ := getFilesStep_ok_inv hg
    subst hrevs2
    intro rev hrev2
    obtain ⟨d, hd, hdr⟩ := List.mem_map.mp hrev2
    have hdf : d ∈ files := (List.perm_insertionSort updatedGe files).subset hd
    have hds : strStarts d.name (joinUriSegments o.pfx (o.pat ++ ":")) = true := by
      rw [hfiles] at hdf
      exact (List.mem_filter.mp hdf).2
    subst hdr
    rw [hcur]
    show (toRevision (some io.meta) (joinUriSegments o.pfx (o.pat ++ ":")) d).active =
      strHas (joinUriSegments o.pfx (o.pat ++ ":") ++
        (toRevision (some io.meta) (joinUriSegments o.pfx (o.pat ++ ":")) d).revision)
        o.revisionKey
    simp only [toRevision, applyMeta, mergedMeta]
    rw [strStarts_append_drop d.name (joinUriSegments o.pfx (o.pat ++ ":")) hds]
  refine ⟨by rw [hput]; simp [applyMeta, mergedMeta], h2, ?_⟩
  intro rev hrev2 hrk
  rw [h2 rev hrev2, hrk]
  simp only [strHas, String.data_append, decide_eq_true_eq]
  exact (List.suffix_append _ _).isInfix

theorem activate_then_fetch_active_witness :
    (findObj (okBackend [⟨"index.html:abc", mkMeta 1, "A"⟩,
        ⟨"index.html", ⟨some "text/html", some defaultCacheControl, none, some "abc", false, 1⟩, "A"⟩])
      (joinUriSegments "" "index.html")).map (fun io => io.meta.revision) =
      some (some "abc") :=
  (activate_then_fetch_active ⟨"", "index.html", "abc", none, false⟩
    (okBackend [⟨"index.html:abc", mkMeta 1, "A"⟩])
    (okBackend [⟨"index.html:abc", mkMeta 1, "A"⟩,
      ⟨"index.html", ⟨some "text/html", some defaultCacheControl, none, some "abc", false, 1⟩, "A"⟩])
    [⟨"abc", 1, true⟩] rfl (by decide) rfl (by decide)).1

/-- C2 counterexample: with revisions `abc` and `abc123` stored,
activating `abc` stamps the index metadata with `abc`, but the
subsequent listing reports `abc123` as active too, because `abc`
occurs as a substring of the key `index.html:abc123`: "active = false
for every other revision" fails on this input. -/
theorem fetch_active_not_exclusive_cex :
    (activate ⟨"", "index.html", "abc", none, false⟩ overlapBackend).2 = none ∧
    (findObj (activate ⟨"", "index.html", "abc", none, false⟩ overlapBackend).1
      "index.html").map (fun o => o.meta.revision) = some (some "abc") ∧
    fetchRevisions "" "index.html"
      (activate ⟨"", "index.html", "abc", none, false⟩ overlapBackend).1 =
      .ok [⟨"abc123", 2, true⟩, ⟨"abc", 1, true⟩] ∧
    ¬ ("abc123" = "abc") := by
  decide
